import Mathlib

/-!
# Verification of the shared-state utility (`src/_hooks/libs/state.utils.ts`)

Shallow embedding of the TypeScript shared-state container created by
`createSharedState`: a mutable value, an ordered observer list, the
imperative accessors `get` / `set` / `update`, the subscription API
`subscribe` / `unsubscribe`, and the pieces of the reactive accessor
`usePick` that are pure (the installed observer and the shallow-equality
check).

JavaScript values are modelled by the inductive `Value`: primitives carry
their content, objects and functions are heap references (`Nat`), so that
`===` / `Object.is` reference identity is equality of reference numbers.
JS numbers are modelled with explicit `NaN`, `-0`, infinities and finite
rationals, enough to express the sign-aware SameValue semantics of the
inlined `is` polyfill.  The JS heap is a list of objects (allocation
appends at the end); an object is its list of own enumerable properties
in insertion order.
-/

/-- JS numbers, as far as the equality logic of the source observes them:
`NaN`, `-0`, the two infinities and finite values (`finite 0` is `+0`).
Finite values are modelled by rationals; the source never does arithmetic
on them other than `1 / x`, which it evaluates only on zeros. -/
inductive JSNum : Type
  | nan
  | negZero
  | inf
  | negInf
  | finite (q : ℚ)
  deriving DecidableEq, Repr

/-- JS primitive values. -/
inductive Prim : Type
  | undefined
  | null
  | bool (b : Bool)
  | str (s : String)
  | num (n : JSNum)
  deriving DecidableEq, Repr

/-- A JS value: a primitive, an object reference, or a function reference.
References are indices into the heap / function table; `===` on objects
and functions is reference identity. -/
inductive Value : Type
  | prim (p : Prim)
  | obj (ref : ℕ)
  | fn (ref : ℕ)
  deriving DecidableEq, Repr

/-- JS strict equality `===` on numbers: `NaN` equals nothing (itself
included) and `-0 === +0`. -/
def numStrictEq : JSNum → JSNum → Bool
  | .nan, _ => false
  | _, .nan => false
  | .negZero, .finite q => q == 0
  | .finite q, .negZero => q == 0
  | a, b => a == b

/-- JS strict equality `===` on primitives. -/
def primStrictEq : Prim → Prim → Bool
  | .num a, .num b => numStrictEq a b
  | a, b => a == b

/-- JS strict equality `===` on values: primitives compare by content
(with the number special cases), objects and functions by reference. -/
def strictEq : Value → Value → Bool
  | .prim a, .prim b => primStrictEq a b
  | .obj r, .obj s => r == s
  | .fn r, .fn s => r == s
  | _, _ => false

/-- JS `1 / x` on numbers: `1 / +0 = Infinity`, `1 / -0 = -Infinity`. -/
def jsOneDiv : JSNum → JSNum
  | .nan => .nan
  | .negZero => .negInf
  | .inf => .finite 0
  | .negInf => .negZero
  | .finite q => if q = 0 then .inf else .finite (1 / q)

/-- The JS number literal `0` (that is, `+0`) as a `Value`. -/
def zeroVal : Value := .prim (.num (.finite 0))

/-- JS `1 / x` as used by the `is` polyfill.  In `is` the division is
reached only when `x === 0` has already held, so only number operands can
reach it; non-number operands (which would be coerced by JS) are mapped to
`NaN` here. -/
def oneDiv : Value → Value
  | .prim (.num n) => .prim (.num (jsOneDiv n))
  | _ => .prim (.num .nan)

/-- The inlined `Object.is` polyfill (source lines 16–18):
`(x === y && (x !== 0 || 1 / x === 1 / y)) || (x !== x && y !== y)`. -/
def jsIs (x y : Value) : Bool :=
  (strictEq x y && (!strictEq x zeroVal || strictEq (oneDiv x) (oneDiv y))) ||
    (!strictEq x x && !strictEq y y)

/-- JS `typeof`. -/
def typeofV : Value → String
  | .prim .undefined => "undefined"
  | .prim .null => "object"
  | .prim (.bool _) => "boolean"
  | .prim (.str _) => "string"
  | .prim (.num _) => "number"
  | .obj _ => "object"
  | .fn _ => "function"

/-- An object: its own enumerable properties in insertion order. -/
abbrev Obj : Type := List (String × Value)

/-- The JS heap: object `ref` is `heap[ref]`; allocation appends. -/
abbrev Heap : Type := List Obj

/-! ## The shared-state container

`createSharedState` (source lines 89–187) closes over a mutable `state`
and a `subscribers` array.  Observers are modelled by reference identity
(`Obs := ℕ`); an observer invocation is recorded as an `Event` carrying
the observer together with the `(prevState, nextState)` pair it receives,
so that "notifies every subscriber once, in order, before `set` returns"
is the concrete list of events a call produces. -/

/-- An observer (subscriber callback), by reference identity. -/
abbrev Obs : Type := ℕ

/-- One observer invocation: which callback was called, and with which
`(prevState, nextState)` argument pair. -/
abbrev Event : Type := Obs × Value × Value

/-- The state captured by the `createSharedState` closure (`state` and
`subscribers`), together with the JS heap the values live in. -/
structure SS : Type where
  heap : Heap
  state : Value
  subscribers : List Obs
  deriving Repr

/-- Meaning of function references: applying function `ref` to a value.
A JS function may allocate, so it also transforms the heap.  Updater
arguments given to `set` are looked up here. -/
abbrev FnTable : Type := ℕ → Heap → Value → Heap × Value

/-- Source `createSharedState(initialState)` (line 89): `state = initialState`,
`subscribers = []`. -/
def createSharedState (heap : Heap) (initialState : Value) : SS :=
  { heap := heap, state := initialState, subscribers := [] }

/-- Source `get` (line 106): returns the current `state`. -/
def get (ss : SS) : Value := ss.state

/-- Source `subscribe` (lines 94–97): `subscribers.push(subscriber)`.  (The
returned closure is `() => unsubscribe(subscriber)`; see
`unsubscribeList`.) -/
def subscribeOp (ss : SS) (subscriber : Obs) : SS :=
  { ss with subscribers := ss.subscribers ++ [subscriber] }

/-- JS `Array.prototype.indexOf`: the index of the first entry
`===`-equal to the argument, or `-1` when there is none. -/
def jsIndexOf (subscribers : List Obs) (subscriber : Obs) : Int :=
  match subscribers with
  | [] => -1
  | a :: rest =>
      if a == subscriber then 0
      else
        let r := jsIndexOf rest subscriber
        if r = -1 then -1 else r + 1

/-- Source `unsubscribe` (lines 100–103), on the subscriber list:
`index = subscribers.indexOf(subscriber); index > -1 &&
subscribers.splice(index, 1)`. -/
def unsubscribeList (subscribers : List Obs) (subscriber : Obs) : List Obs :=
  let index := jsIndexOf subscribers subscriber
  if index > -1 then subscribers.eraseIdx index.toNat else subscribers

/-- Source `unsubscribe` on the whole container state. -/
def unsubscribeOp (ss : SS) (subscriber : Obs) : SS :=
  { ss with subscribers := unsubscribeList ss.subscribers subscriber }

/-- Lines 113–117 of `set`, with the candidate `nextState` already
computed: `if (objectIs(state, nextState)) return; state = nextState;
subscribers.forEach((cb) => cb(prevState, state))`.  Returns the new
closure state and the list of observer invocations the call performs
before returning. -/
def setWith (ss : SS) (nextState : Value) : SS × List Event :=
  let prevState := ss.state
  if jsIs ss.state nextState then (ss, [])
  else ({ ss with state := nextState },
        ss.subscribers.map fun cb => (cb, prevState, nextState))

/-- Line 112 of `set`: `typeof next === 'function' ? next(prevState) :
next`.  Exactly the `.fn` values satisfy `typeof next === 'function'`
(this is proved with claim C10), and applying one means applying its
`FnTable` entry. -/
def applyNext (table : FnTable) (heap : Heap) (prevState : Value) :
    Value → Heap × Value
  | .fn ref => table ref heap prevState
  | next => (heap, next)

/-- Source `set` (lines 109–118): compute the candidate (invoking the argument
on the current state when it is a function), then compare-and-commit. -/
def setOp (table : FnTable) (ss : SS) (next : Value) : SS × List Event :=
  let hc := applyNext table ss.heap ss.state next
  setWith { ss with heap := hc.1 } hc.2

/-- Own-property lookup in an object. -/
def lookupProp (props : Obj) (key : String) : Option Value :=
  (props.find? fun kv => kv.1 == key).map fun kv => kv.2

/-- JS `Object.prototype.hasOwnProperty.call(o, key)` on an object's
property list. -/
def hasKey (props : Obj) (key : String) : Bool :=
  props.any fun kv => kv.1 == key

/-- The own enumerable properties a value contributes when spread into an
object literal: objects contribute their properties, strings contribute
their indexed characters, every other primitive (and functions, whose
standard properties are non-enumerable) contributes nothing.  Spreading
never throws, for any value. -/
def spreadProps (heap : Heap) : Value → Obj
  | .obj ref => heap.getD ref []
  | .prim (.str s) =>
      s.data.enum.map fun ic => (toString ic.1, .prim (.str (String.mk [ic.2])))
  | _ => []

/-- The property list of the object literal `{...a, ...b}` when `a` and
`b` have distinct keys (as `Object.keys` guarantees): `a`'s keys in
order, each overridden by `b`'s value when `b` also has the key,
followed by `b`'s keys not in `a`, in order. -/
def mergeProps (a b : Obj) : Obj :=
  (a.map fun kv => (kv.1, (lookupProp b kv.1).getD kv.2)) ++
    b.filter fun kv => !hasKey a kv.1

/-- Source `update` (lines 176–181): `set((pre) => ({...pre, ...input}))`.  The
arrow function always takes `set`'s updater branch (its `typeof` is
`'function'`); its body allocates the merged object literal as a fresh
reference at the end of the heap and returns that reference, which `set`
then compares-and-commits. -/
def updateOp (ss : SS) (input : Obj) : SS × List Event :=
  let pre := ss.state
  let merged := mergeProps (spreadProps ss.heap pre) input
  setWith { ss with heap := ss.heap ++ [merged] } (.obj ss.heap.length)

/-- JS `Object.keys` of a value known to be an object reference (the only
case `shallowEqual` reaches it in). -/
def objKeys (heap : Heap) : Value → List String
  | .obj ref => (heap.getD ref []).map fun kv => kv.1
  | _ => []

/-- Property access `o[key]` on an object reference: the own property's
value, or `undefined` when absent. -/
def getProp (heap : Heap) (o : Value) (key : String) : Value :=
  match o with
  | .obj ref => (lookupProp (heap.getD ref []) key).getD (.prim .undefined)
  | _ => .prim .undefined

/-- JS `hasOwnProperty` on a value (only reached on object references). -/
def hasOwnProp (heap : Heap) (o : Value) (key : String) : Bool :=
  match o with
  | .obj ref => hasKey (heap.getD ref []) key
  | _ => false

/-- Source `shallowEqual` (lines 28–60): `is` short-circuit, the
`typeof !== 'object' || === null` guard, the key-count check, then the
key loop (an `all` over A's keys, matching the loop's early `return
false`). -/
def shallowEqual (heap : Heap) (objA objB : Value) : Bool :=
  if jsIs objA objB then true
  else if typeofV objA != "object" || objA == Value.prim .null ||
      typeofV objB != "object" || objB == Value.prim .null then false
  else
    let keysA := objKeys heap objA
    let keysB := objKeys heap objB
    if keysA.length != keysB.length then false
    else keysA.all fun k =>
      hasOwnProp heap objB k && jsIs (getProp heap objA k) (getProp heap objB k)

/-- The per-component mutable ref cell of `usePick` (source lines
142–150): `ref.current.picker` is the picker supplied on the most recent
render, `ref.current.oldState` the currently stored projection. -/
structure PickRef : Type where
  picker : Value → Value
  oldState : Value

/-- The observer `usePick` installs (source lines 152–159, the `sub`
callback): recompute the projection of the container's *current* state
with the *latest* picker, and when it is not shallow-equal to the stored
projection, store it and schedule a re-render (`setPickedState`).
Returns the ref cell as the next render will see it (line 150 copies the
React state back into `oldState`) and whether a re-render was
scheduled. -/
def usePickSub (heap : Heap) (ref : PickRef) (containerState : Value) :
    PickRef × Bool :=
  let pickedOld := ref.oldState
  let pickedNew := ref.picker containerState
  if !shallowEqual heap pickedOld pickedNew then
    ({ ref with oldState := pickedNew }, true)
  else (ref, false)

/-- A finite sequence of `set` calls, in order. -/
def runSets (table : FnTable) (ss : SS) : List Value → SS
  | [] => ss
  | next :: rest => runSets table (setOp table ss next).1 rest

/-- The value the spec says `get` must return after a sequence of `set`
calls: the most recently *accepted* candidate, where a candidate
SameValue-equal to the current value is rejected and changes nothing.
(The heap still advances: an updater runs before its result is
compared.) -/
def lastAccepted (table : FnTable) (heap : Heap) (current : Value) :
    List Value → Value
  | [] => current
  | next :: rest =>
      let hc := applyNext table heap current next
      if jsIs current hc.2 then lastAccepted table hc.1 current rest
      else lastAccepted table hc.1 hc.2 rest

/-- One call of the component's imperative surface. -/
inductive OpCall : Type
  | getC
  | setC (next : Value)
  | updateC (input : Obj)
  | subscribeC (cb : Obs)
  | unsubscribeC (cb : Obs)

/-- Running one imperative call, in an error-aware result type: a JS
exception would surface as `.error`.  No operation of the component has a
throw path — in particular the object spread in `update` is defined (and
throw-free) for every current value, object or not — so every call
constructs an `.ok` result. -/
def runOp (table : FnTable) (ss : SS) :
    OpCall → Except String (SS × List Event × Option Value)
  | .getC => .ok (ss, [], some (get ss))
  | .setC next =>
      let r := setOp table ss next
      .ok (r.1, r.2, none)
  | .updateC input =>
      let r := updateOp ss input
      .ok (r.1, r.2, none)
  | .subscribeC cb => .ok (subscribeOp ss cb, [], none)
  | .unsubscribeC cb => .ok (unsubscribeOp ss cb, [], none)

/-- The spec's description of shallow equality for projections (§4.2 and
the glossary), stated independently of the loop in the source: the two
values are SameValue-equal, or both are (non-null) object references
whose own enumerable key sets are identical and whose values at every
key are pairwise SameValue-equal. -/
def specShallowEqual (heap : Heap) (a b : Value) : Prop :=
  jsIs a b = true ∨
  ∃ ra rb, a = Value.obj ra ∧ b = Value.obj rb ∧
    (objKeys heap a).toFinset = (objKeys heap b).toFinset ∧
    ∀ k ∈ objKeys heap a,
      jsIs (getProp heap a k) (getProp heap b k) = true

/-! ## Basic facts about the value model -/

/-- The body of the `is` polyfill specialised to two numbers decides their
equality in this model (which distinguishes `-0` from `+0` and has a
single `NaN`). -/
theorem numIs_iff (a b : JSNum) :
    ((numStrictEq a b &&
        (!numStrictEq a (.finite 0) || numStrictEq (jsOneDiv a) (jsOneDiv b))) ||
      (!numStrictEq a a && !numStrictEq b b)) = true ↔ a = b := by
  rcases a with _ | _ | _ | _ | q <;> rcases b with _ | _ | _ | _ | p <;>
    first
      | (simp [numStrictEq, jsOneDiv]; done)
      | (by_cases hq : q = 0 <;> by_cases hp : p = 0 <;>
          simp_all [numStrictEq, jsOneDiv, eq_comm])
      | (by_cases hq : q = 0 <;> simp_all [numStrictEq, jsOneDiv])
      | (by_cases hp : p = 0 <;> simp_all [numStrictEq, jsOneDiv])

/-- The polyfill `is` on two numbers in the full value model. -/
theorem jsIs_prim_num (a b : JSNum) :
    jsIs (.prim (.num a)) (.prim (.num b)) = true ↔ a = b := by
  simpa [jsIs, strictEq, primStrictEq, zeroVal, oneDiv] using numIs_iff a b

/-- On this value model, SameValue (`is`) coincides with equality of the
representations: the representation already separates `-0` from `+0` and
makes `NaN` a single value. -/
theorem jsIs_iff_eq (x y : Value) : jsIs x y = true ↔ x = y := by
  rcases x with px | rx | rx <;> rcases y with py | ry | ry
  · rcases px with _ | _ | b | s | a <;> rcases py with _ | _ | c | t | d <;>
      try (simp [jsIs, strictEq, primStrictEq, zeroVal, oneDiv, numStrictEq]; done)
    simpa using jsIs_prim_num a d
  all_goals simp [jsIs, strictEq, zeroVal, oneDiv]

/-! ## Helper lemmas -/

/-- Unfolding lemma: `get` projects the closure's `state` field. -/
theorem get_spec (ss : SS) : get ss = ss.state := rfl

/-- JS `indexOf` never returns anything below `-1`. -/
theorem jsIndexOf_ge (l : List Obs) (cb : Obs) : -1 ≤ jsIndexOf l cb := by
  induction l with
  | nil => simp [jsIndexOf]
  | cons a rest ih =>
    by_cases hac : (a == cb) = true
    · simp [jsIndexOf, hac]
    · by_cases hr : jsIndexOf rest cb = -1
      · simp [jsIndexOf, hac, hr]
      · simp [jsIndexOf, hac, hr]
        omega

/-- The `indexOf`-and-`splice` removal of the source is first-occurrence
removal (`List.erase`). -/
theorem unsubscribeList_eq_erase (l : List Obs) (cb : Obs) :
    unsubscribeList l cb = l.erase cb := by
  induction l with
  | nil => rfl
  | cons a rest ih =>
    by_cases hac : (a == cb) = true
    · have ha : a = cb := by simpa using hac
      subst ha
      simp [unsubscribeList, jsIndexOf, List.erase_cons_head]
    · have ha : ¬a = cb := by simpa using hac
      rw [List.erase_cons_tail (by simpa using ha)]
      by_cases hr : jsIndexOf rest cb = -1
      · have hrest : unsubscribeList rest cb = rest := by
          simp [unsubscribeList, hr]
        rw [hrest] at ih
        simp [unsubscribeList, jsIndexOf, hac, hr, ← ih]
      · have hge : 0 ≤ jsIndexOf rest cb := by
          have := jsIndexOf_ge rest cb
          omega
        obtain ⟨n, hn⟩ := Int.eq_ofNat_of_zero_le hge
        have hrest : unsubscribeList rest cb = rest.eraseIdx n := by
          simp [unsubscribeList, hn]
          omega
        rw [hrest] at ih
        rw [unsubscribeList]
        simp only [jsIndexOf, hac, Bool.false_eq_true, if_false, hn]
        rw [if_neg (by omega : ¬((n : Int) = -1))]
        rw [if_pos (by omega : ((n : Int) + 1) > -1)]
        have htn : ((n : Int) + 1).toNat = n + 1 := by omega
        rw [htn, List.eraseIdx_cons_succ, ih]

/-- Checking `hasOwnProperty` on a property list is membership of its key list. -/
theorem hasKey_iff (props : Obj) (key : String) :
    hasKey props key = true ↔ key ∈ props.map Prod.fst := by
  simp [hasKey, List.any_eq_true, List.mem_map, beq_iff_eq]

/-- The state reached by a sequence of `set` calls carries exactly the
most recently accepted candidate. -/
theorem runSets_state (table : FnTable) (calls : List Value) :
    ∀ ss : SS, (runSets table ss calls).state =
      lastAccepted table ss.heap ss.state calls := by
  induction calls with
  | nil => intro ss; rfl
  | cons c rest ih =>
    intro ss
    show (runSets table (setOp table ss c).1 rest).state = _
    rw [ih, lastAccepted]
    by_cases h : jsIs ss.state (applyNext table ss.heap ss.state c).2 = true
    · simp [setOp, setWith, h]
    · simp [setOp, setWith, h]

/-! ## The claims -/

/-- Claim C1: a `set` call whose candidate next value (the literal
argument, or the result of applying the updater function to the current
value) is SameValue-equal to the current value is a no-op: a subsequent
`get` returns the unchanged stored value, the subscriber list is
unchanged, and zero observer notifications occur. -/
theorem set_sameValue_noop (table : FnTable) (ss : SS) (next : Value)
    (h : jsIs ss.state (applyNext table ss.heap ss.state next).2 = true) :
    get (setOp table ss next).1 = get ss ∧
    (setOp table ss next).1.subscribers = ss.subscribers ∧
    (setOp table ss next).2 = [] := by
  simp [setOp, setWith, get_spec, h]

/-- Witness for C1: `set(0)` on a container holding `0`. -/
theorem set_sameValue_noop_witness :
    get (setOp (fun _ hp v => (hp, v)) (createSharedState [] zeroVal) zeroVal).1 =
      get (createSharedState [] zeroVal) ∧
    (setOp (fun _ hp v => (hp, v)) (createSharedState [] zeroVal) zeroVal).2 = [] :=
  ⟨(set_sameValue_noop (fun _ hp v => (hp, v)) (createSharedState [] zeroVal)
      zeroVal (by decide)).1,
    (set_sameValue_noop (fun _ hp v => (hp, v)) (createSharedState [] zeroVal)
      zeroVal (by decide)).2.2⟩

/-- Claim C2: a `set` call whose candidate is not SameValue-equal to the
current value stores the candidate as the new current value and invokes
every observer subscribed at that moment exactly once, in subscription
order, with the pair `(previousValue, newValue)` — the call's event list
is exactly one entry per subscriber, in list order, all carrying that
pair, produced before `set` returns. -/
theorem set_change_notifies (table : FnTable) (ss : SS) (next : Value)
    (h : jsIs ss.state (applyNext table ss.heap ss.state next).2 = false) :
    (setOp table ss next).1.state = (applyNext table ss.heap ss.state next).2 ∧
    (setOp table ss next).2 =
      ss.subscribers.map fun cb =>
        (cb, ss.state, (applyNext table ss.heap ss.state next).2) := by
  simp [setOp, setWith, h]

/-- Witness for C2: `set(1)` on a container holding `0` with one
subscriber notifies it once with `(0, 1)`. -/
theorem set_change_notifies_witness :
    (setOp (fun _ hp v => (hp, v))
        (subscribeOp (createSharedState [] zeroVal) 7)
        (Value.prim (Prim.num (JSNum.finite 1)))).2 =
      [(7, zeroVal, Value.prim (Prim.num (JSNum.finite 1)))] := by
  rw [(set_change_notifies (fun _ hp v => (hp, v))
      (subscribeOp (createSharedState [] zeroVal) 7)
      (Value.prim (Prim.num (JSNum.finite 1))) (by decide)).2]
  rfl

/-- Claim C4 counterexample: with the same callback reference subscribed
twice, the unsubscribe closure returned by `subscribe` is *not* a no-op
on its second invocation — the second call removes the second
occurrence, changing the observer list again. -/
theorem unsub_second_call_cex :
    unsubscribeList
        (unsubscribeList
          (subscribeOp (subscribeOp (createSharedState [] zeroVal) 0) 0).subscribers
          0)
        0 ≠
      unsubscribeList
        (subscribeOp (subscribeOp (createSharedState [] zeroVal) 0) 0).subscribers
        0 := by
  decide

/-- Claim C4 (amended): when the callback reference occurs at most once
in the observer list — in particular when it was subscribed only once —
invoking the unsubscribe function returned by `subscribe` a second or
later time after the first performs no further removal: the list is
unchanged by every invocation after the first. -/
theorem unsub_second_call_noop (l : List Obs) (cb : Obs)
    (hcount : l.count cb ≤ 1) :
    unsubscribeList (unsubscribeList l cb) cb = unsubscribeList l cb := by
  rw [unsubscribeList_eq_erase, unsubscribeList_eq_erase]
  apply List.erase_of_not_mem
  rw [← List.count_eq_zero]
  have := List.count_erase_self cb l
  omega

/-- Witness for the amended C4: a list holding the callback once. -/
theorem unsub_second_call_noop_witness :
    unsubscribeList (unsubscribeList [0, 7] 7) 7 = unsubscribeList [0, 7] 7 :=
  unsub_second_call_noop [0, 7] 7 (by decide)

/-- Claim C5: `unsubscribe(observer)` removes exactly the first entry
reference-equal to `observer` — the list splits as `l₁ ++ observer :: l₂`
with no earlier occurrence, and the result is `l₁ ++ l₂`, all other
entries kept in their original relative order — and is a no-op when no
entry is reference-equal to `observer`. -/
theorem unsubscribe_removes_first (cb : Obs) (l : List Obs) :
    (cb ∈ l → ∃ l1 l2, l = l1 ++ cb :: l2 ∧ cb ∉ l1 ∧
      unsubscribeList l cb = l1 ++ l2) ∧
    (cb ∉ l → unsubscribeList l cb = l) := by
  constructor
  · intro hm
    obtain ⟨l1, l2, hnot, hl, he⟩ := List.exists_erase_eq hm
    exact ⟨l1, l2, hl, hnot, by rw [unsubscribeList_eq_erase]; exact he⟩
  · intro hnm
    rw [unsubscribeList_eq_erase, List.erase_of_not_mem hnm]

/-- Witness for C5 on `[1, 0, 2]` with observer `0`. -/
theorem unsubscribe_removes_first_witness :
    ∃ l1 l2, [1, 0, 2] = l1 ++ 0 :: l2 ∧ (0 : Obs) ∉ l1 ∧
      unsubscribeList [1, 0, 2] 0 = l1 ++ l2 :=
  (unsubscribe_removes_first 0 [1, 0, 2]).1 (by decide)

/-- Claim C7: `get` right after `createSharedState(v)` returns `v`, and
after any finite sequence of `set` calls `get` returns the most recently
accepted candidate value — candidates rejected by the SameValue
short-circuit never change `get`'s result. -/
theorem get_returns_last_accepted (table : FnTable) (heap : Heap) (v : Value)
    (calls : List Value) :
    get (createSharedState heap v) = v ∧
    get (runSets table (createSharedState heap v) calls) =
      lastAccepted table heap v calls :=
  ⟨rfl, runSets_state table calls (createSharedState heap v)⟩

/-- Claim C8: no operation of the component raises a defined error of
its own: every call of the imperative surface — `update` on a non-object
current value included, since object spread is defined and throw-free on
every value — constructs an `.ok` result; nothing is reported through
the error channel, so any misuse is left to the host framework. -/
theorem component_ops_total (table : FnTable) (ss : SS) (call : OpCall) :
    (runOp table ss call).isOk = true := by
  cases call <;> rfl

/-- Claim C9: the observer `usePick` installs recomputes the projection
by applying the latest picker (the one held by the render-updated ref)
to the container's current value, and schedules a re-render and stores
the new projection exactly when the new projection is not shallow-equal
to the stored one; when shallow-equal, the stored projection is
unchanged and no re-render is scheduled.  The picker itself is never
modified by the observer. -/
theorem usePickSub_spec (heap : Heap) (ref : PickRef) (s : Value) :
    (usePickSub heap ref s).2 = !shallowEqual heap ref.oldState (ref.picker s) ∧
    (usePickSub heap ref s).1.oldState =
      (if shallowEqual heap ref.oldState (ref.picker s) then ref.oldState
        else ref.picker s) ∧
    (usePickSub heap ref s).1.picker = ref.picker := by
  unfold usePickSub
  by_cases h : shallowEqual heap ref.oldState (ref.picker s) = true <;> simp [h]

/-- Claim C10: `set` dispatches on whether its argument is a function —
exactly the values with `typeof === 'function'` are the function
references; every non-function argument is taken as the literal
candidate; a function argument is always invoked as an updater on the
current value, so after `set(f)` the stored value is either the old
value or the updater's result, never the function value stored
directly. -/
theorem set_dispatches_on_function (table : FnTable) (ss : SS) :
    (∀ next : Value, typeofV next = "function" ↔ ∃ r, next = Value.fn r) ∧
    (∀ next : Value, typeofV next ≠ "function" →
      applyNext table ss.heap ss.state next = (ss.heap, next)) ∧
    ∀ r : ℕ,
      applyNext table ss.heap ss.state (Value.fn r) = table r ss.heap ss.state ∧
      ((setOp table ss (Value.fn r)).1.state = ss.state ∨
        (setOp table ss (Value.fn r)).1.state = (table r ss.heap ss.state).2) := by
  refine ⟨?_, ?_, ?_⟩
  · intro next
    rcases next with p | r | r
    · rcases p <;> simp [typeofV]
    · simp [typeofV]
    · simp [typeofV]
  · intro next hfn
    rcases next with p | r | r
    · rfl
    · rfl
    · exact absurd rfl hfn
  · intro r
    refine ⟨rfl, ?_⟩
    by_cases h : jsIs ss.state (table r ss.heap ss.state).2 = true
    · left
      simp [setOp, setWith, applyNext, h]
    · right
      simp [setOp, setWith, applyNext, h]

/-- Witness for C10: a non-function argument (here `null`) is taken
literally. -/
theorem set_dispatches_on_function_witness :
    applyNext (fun _ hp v => (hp, v)) [] zeroVal (Value.prim Prim.null) =
      ([], Value.prim Prim.null) :=
  (set_dispatches_on_function (fun _ hp v => (hp, v))
      (createSharedState [] zeroVal)).2.1 (Value.prim Prim.null) (by decide)

/-- Claim C3: on a container holding an object value, `update(partial)`
replaces the current value with a freshly allocated object holding the
shallow merge `{...current, ...partial}`; the fresh reference is always
distinct from the current one, so the SameValue short-circuit in `set`
never fires and every `update` call triggers exactly one notification
per subscriber, in order, with the `(previous, merged)` pair — even when
all merged fields are SameValue-equal to their previous values. -/
theorem update_always_notifies (ss : SS) (input : Obj) (r : ℕ)
    (hobj : ss.state = Value.obj r) (hr : r < ss.heap.length) :
    (updateOp ss input).1.state = Value.obj ss.heap.length ∧
    (updateOp ss input).1.state ≠ ss.state ∧
    (updateOp ss input).1.heap.getD ss.heap.length [] =
      mergeProps (ss.heap.getD r []) input ∧
    (updateOp ss input).2 =
      ss.subscribers.map fun cb => (cb, ss.state, Value.obj ss.heap.length) := by
  have hne : ss.state ≠ Value.obj ss.heap.length := by
    rw [hobj]
    intro hcon
    injection hcon with hcon
    omega
  have hIs : jsIs ss.state (Value.obj ss.heap.length) = false := by
    rw [Bool.eq_false_iff]
    intro hT
    exact hne ((jsIs_iff_eq _ _).mp hT)
  refine ⟨?_, ?_, ?_, ?_⟩
  · simp [updateOp, setWith, hIs]
  · simp only [updateOp, setWith, hIs, Bool.false_eq_true, if_false]
    exact fun hcon => hne hcon.symm
  · simp only [updateOp, setWith, hIs, Bool.false_eq_true, if_false]
    rw [List.getD_append_right _ _ _ _ (le_refl _)]
    simp [hobj, spreadProps]
  · simp [updateOp, setWith, hIs]

/-- Witness for C3: `update({b: 3})` on a container holding `{a: 1, b: 2}`
stores a fresh object reference. -/
theorem update_always_notifies_witness :
    (updateOp
        ⟨[[("a", Value.prim (Prim.num (JSNum.finite 1))),
            ("b", Value.prim (Prim.num (JSNum.finite 2)))]],
          Value.obj 0, [5]⟩
        [("b", Value.prim (Prim.num (JSNum.finite 3)))]).1.state =
      Value.obj 1 :=
  (update_always_notifies _ _ 0 rfl (by decide)).1

/-- The first guard of `shallowEqual` (the `typeof`/`null` test on one
operand) fails exactly on object references. -/
theorem guard_false_iff (v : Value) :
    ((typeofV v != "object") || (v == Value.prim Prim.null)) = false ↔
      ∃ r, v = Value.obj r := by
  rcases v with p | r | r
  · rcases p <;> simp [typeofV]
  · simp [typeofV]
  · simp [typeofV]

/-- The check `shallowEqual` is false whenever the operands are not SameValue-equal
and the `typeof`/`null` guard fires. -/
theorem shallowEqual_not_obj (heap : Heap) (x y : Value)
    (hIs : ¬jsIs x y = true)
    (hguard : ((typeofV x != "object") || (x == Value.prim Prim.null) ||
        (typeofV y != "object") || (y == Value.prim Prim.null)) = true) :
    shallowEqual heap x y = false := by
  rw [shallowEqual, if_neg hIs, if_pos hguard]

/-- Keys of any heap slot are duplicate-free in a well-formed heap. -/
theorem wf_keys {heap : Heap} (hwf : ∀ o ∈ heap, (o.map Prod.fst).Nodup)
    (r : ℕ) : ((heap.getD r []).map Prod.fst).Nodup := by
  by_cases hr : r < heap.length
  · rw [List.getD_eq_getElem _ _ hr]
    exact hwf _ (List.getElem_mem hr)
  · rw [List.getD_eq_default _ _ (le_of_not_lt hr)]
    simp

/-- The object/object case of `shallowEqual`: key-count plus key-by-key
comparison amounts to key-set identity with pairwise SameValue-equal
values (given duplicate-free keys). -/
theorem shallowEqual_obj_obj (heap : Heap) (ra rb : ℕ)
    (hwf : ∀ o ∈ heap, (o.map Prod.fst).Nodup)
    (hIs : ¬jsIs (Value.obj ra) (Value.obj rb) = true) :
    shallowEqual heap (Value.obj ra) (Value.obj rb) = true ↔
      ((objKeys heap (Value.obj ra)).toFinset =
          (objKeys heap (Value.obj rb)).toFinset ∧
        ∀ k ∈ objKeys heap (Value.obj ra),
          jsIs (getProp heap (Value.obj ra) k)
            (getProp heap (Value.obj rb) k) = true) := by
  have nda : (objKeys heap (Value.obj ra)).Nodup := wf_keys hwf ra
  have ndb : (objKeys heap (Value.obj rb)).Nodup := wf_keys hwf rb
  rw [shallowEqual, if_neg hIs, if_neg (by simp [typeofV])]
  by_cases hlen :
      (objKeys heap (Value.obj ra)).length = (objKeys heap (Value.obj rb)).length
  · rw [if_neg (by simp [hlen])]
    rw [List.all_eq_true]
    constructor
    · intro hall
      have hsub : (objKeys heap (Value.obj ra)).toFinset ⊆
          (objKeys heap (Value.obj rb)).toFinset := by
        intro k hk
        rw [List.mem_toFinset] at hk ⊢
        have := hall k hk
        rw [Bool.and_eq_true] at this
        exact (hasKey_iff _ _).mp this.1
      refine ⟨Finset.eq_of_subset_of_card_le hsub ?_, fun k hk => ?_⟩
      · rw [List.toFinset_card_of_nodup nda, List.toFinset_card_of_nodup ndb, hlen]
      · have := hall k hk
        rw [Bool.and_eq_true] at this
        exact this.2
    · rintro ⟨hfin, hvals⟩
      intro k hk
      rw [Bool.and_eq_true]
      refine ⟨(hasKey_iff _ _).mpr ?_, hvals k hk⟩
      show k ∈ objKeys heap (Value.obj rb)
      rw [← List.mem_toFinset, ← hfin, List.mem_toFinset]
      exact hk
  · rw [if_pos (by simp [hlen])]
    simp only [Bool.false_eq_true, false_iff]
    rintro ⟨hfin, _⟩
    apply hlen
    rw [← List.toFinset_card_of_nodup nda, ← List.toFinset_card_of_nodup ndb, hfin]

/-- Claim C6: the shallow-equality check used for projections returns
true exactly when the two values are SameValue-equal, or both are
non-null objects whose own enumerable key sets are identical and whose
value at every key is pairwise SameValue-equal; any difference in key
count or key names, or any operand that is null or not of object type,
yields false.  (Stated for heaps whose objects carry duplicate-free
keys, as `Object.keys` guarantees.) -/
theorem shallowEqual_spec (heap : Heap) (a b : Value)
    (hwf : ∀ o ∈ heap, (o.map Prod.fst).Nodup) :
    shallowEqual heap a b = true ↔ specShallowEqual heap a b := by
  by_cases hIs : jsIs a b = true
  · simp [shallowEqual, specShallowEqual, hIs]
  · rcases a with pa | ra | ra <;> rcases b with pb | rb | rb
    · rw [shallowEqual_not_obj heap _ _ hIs (by rcases pa <;> simp [typeofV])]
      simp only [Bool.false_eq_true, false_iff, specShallowEqual]
      rintro (h | ⟨ra', rb', h1, _, _⟩)
      · exact hIs h
      · exact Value.noConfusion h1
    · rw [shallowEqual_not_obj heap _ _ hIs (by rcases pa <;> simp [typeofV])]
      simp only [Bool.false_eq_true, false_iff, specShallowEqual]
      rintro (h | ⟨ra', rb', h1, _, _⟩)
      · exact hIs h
      · exact Value.noConfusion h1
    · rw [shallowEqual_not_obj heap _ _ hIs (by rcases pa <;> simp [typeofV])]
      simp only [Bool.false_eq_true, false_iff, specShallowEqual]
      rintro (h | ⟨ra', rb', h1, _, _⟩)
      · exact hIs h
      · exact Value.noConfusion h1
    · rw [shallowEqual_not_obj heap _ _ hIs (by rcases pb <;> simp [typeofV])]
      simp only [Bool.false_eq_true, false_iff, specShallowEqual]
      rintro (h | ⟨ra', rb', _, h2, _⟩)
      · exact hIs h
      · exact Value.noConfusion h2
    · rw [shallowEqual_obj_obj heap ra rb hwf hIs, specShallowEqual]
      constructor
      · rintro ⟨hfin, hvals⟩
        exact Or.inr ⟨ra, rb, rfl, rfl, hfin, hvals⟩
      · rintro (h | ⟨ra', rb', h1, h2, hfin, hvals⟩)
        · exact absurd h hIs
        · cases h1
          cases h2
          exact ⟨hfin, hvals⟩
    · rw [shallowEqual_not_obj heap _ _ hIs (by simp [typeofV])]
      simp only [Bool.false_eq_true, false_iff, specShallowEqual]
      rintro (h | ⟨ra', rb', _, h2, _⟩)
      · exact hIs h
      · exact Value.noConfusion h2
    · rw [shallowEqual_not_obj heap _ _ hIs (by simp [typeofV])]
      simp only [Bool.false_eq_true, false_iff, specShallowEqual]
      rintro (h | ⟨ra', rb', h1, _, _⟩)
      · exact hIs h
      · exact Value.noConfusion h1
    · rw [shallowEqual_not_obj heap _ _ hIs (by simp [typeofV])]
      simp only [Bool.false_eq_true, false_iff, specShallowEqual]
      rintro (h | ⟨ra', rb', h1, _, _⟩)
      · exact hIs h
      · exact Value.noConfusion h1
    · rw [shallowEqual_not_obj heap _ _ hIs (by simp [typeofV])]
      simp only [Bool.false_eq_true, false_iff, specShallowEqual]
      rintro (h | ⟨ra', rb', h1, _, _⟩)
      · exact hIs h
      · exact Value.noConfusion h1

/-- Witness for C6: two distinct references with equal single-key
contents are shallow-equal per the spec's description. -/
theorem shallowEqual_spec_witness :
    specShallowEqual [[("a", zeroVal)], [("a", zeroVal)]]
      (Value.obj 0) (Value.obj 1) :=
  (shallowEqual_spec [[("a", zeroVal)], [("a", zeroVal)]]
      (Value.obj 0) (Value.obj 1) (by decide)).mp (by decide)
